import Mathlib

/-!
Verification of the kchat kernel chat module (src/kchat_mod.c).

The module implements a broadcast byte channel over a fixed 2048-byte ring
buffer.  Each server (one per inode) holds a write cursor `end`, a byte
buffer, and a list of clients, each with its own read offset.  We embed the
pure content of the C functions as Lean functions over an explicit server
state and prove the specified properties about them.
-/

namespace Kchat

/-- Buffer capacity, `KCHAT_BUF` in the source. -/
def KCHAT_BUF : Nat := 2048

/-- Circular distance macro `DIST(a, b)` from the source:
`(a) <= (b) ? (b) - (a) : KCHAT_BUF + (b) - (a)`. -/
def DIST (a b : Nat) : Nat := if a ≤ b then b - a else KCHAT_BUF + b - a

/-- State of `struct kchat_server`: the byte buffer, the write cursor
`end` (here `ends`, since `end` is reserved), and the read offsets of the
attached clients (the `client_list`, most recently attached first, as
`list_add` prepends). -/
structure KchatServer where
  buffer : List Nat
  ends : Nat
  clients : List Nat
deriving DecidableEq

/-- Loop body of `blocking_offset`: scan the client list keeping the
largest `DIST(cnt->offset, srv->end)` seen so far (`maxunread`) and the
offset it was seen at, starting from `maxunread = 0, offset = srv->end`. -/
def blocking_aux : List Nat → Nat → Nat → Nat → Nat × Nat
  | [], _, mx, off => (mx, off)
  | c :: cs, e, mx, off =>
    if DIST c e > mx then blocking_aux cs e (DIST c e) c
    else blocking_aux cs e mx off

/-- `blocking_offset(srv)`: offset of the client with the most unread
data, or `srv->end` when there is no client. -/
def blocking_offset (srv : KchatServer) : Nat :=
  (blocking_aux srv.clients srv.ends 0 srv.ends).2

/-- `room_to_write(srv)`: distance from `srv->end` to one before the
blocking offset. -/
def room_to_write (srv : KchatServer) : Nat :=
  DIST srv.ends ((blocking_offset srv + KCHAT_BUF - 1) % KCHAT_BUF)

/-- Spec-side formula: the maximum of `dist(client.read_cursor,
write_cursor)` over the attached clients, 0 when there are none.  This is
written from the spec's words, to be compared with `room_to_write`. -/
def maxdist (clients : List Nat) (e : Nat) : Nat :=
  clients.foldr (fun c m => max (DIST c e) m) 0

/-- Validity of a server state: cursors lie in `[0, KCHAT_BUF)`. -/
def validServer (srv : KchatServer) : Prop :=
  srv.ends < KCHAT_BUF ∧ ∀ c ∈ srv.clients, c < KCHAT_BUF

lemma maxdist_cons (c : Nat) (cs : List Nat) (e : Nat) :
    maxdist (c :: cs) e = max (DIST c e) (maxdist cs e) := rfl

lemma blocking_aux_dist (cs : List Nat) (e : Nat) :
    ∀ mx off, DIST off e = mx →
      DIST (blocking_aux cs e mx off).2 e = (blocking_aux cs e mx off).1 ∧
      (blocking_aux cs e mx off).1 = max mx (maxdist cs e) := by
  induction cs with
  | nil => intro mx off h; simp [blocking_aux, maxdist, h]
  | cons c cs ih =>
    intro mx off h
    simp only [blocking_aux, maxdist_cons]
    by_cases hc : DIST c e > mx
    · rw [if_pos hc]
      rcases ih (DIST c e) c rfl with ⟨h1, h2⟩
      refine ⟨h1, ?_⟩
      rw [h2]
      have := Nat.le_of_lt hc
      omega
    · rw [if_neg hc]
      rcases ih mx off h with ⟨h1, h2⟩
      refine ⟨h1, ?_⟩
      rw [h2]
      omega

lemma blocking_aux_mem (cs : List Nat) (e : Nat) :
    ∀ mx off, (blocking_aux cs e mx off).2 = off ∨
      (blocking_aux cs e mx off).2 ∈ cs := by
  induction cs with
  | nil => intro mx off; simp [blocking_aux]
  | cons c cs ih =>
    intro mx off
    simp only [blocking_aux]
    by_cases hc : DIST c e > mx
    · rw [if_pos hc]
      rcases ih (DIST c e) c with h | h
      · right; rw [h]; exact List.mem_cons_self c cs
      · right; exact List.mem_cons_of_mem c h
    · rw [if_neg hc]
      rcases ih mx off with h | h
      · left; exact h
      · right; exact List.mem_cons_of_mem c h

/-- Blocking offset is a valid cursor whenever the state is valid. -/
lemma blocking_offset_lt (srv : KchatServer) (he : srv.ends < KCHAT_BUF)
    (hc : ∀ c ∈ srv.clients, c < KCHAT_BUF) :
    blocking_offset srv < KCHAT_BUF := by
  rcases blocking_aux_mem srv.clients srv.ends 0 srv.ends with h | h
  · unfold blocking_offset; rw [h]; exact he
  · exact hc _ h

/-- Distance from the blocking offset to the write cursor is the maximum
unread distance. -/
lemma blocking_offset_dist (srv : KchatServer) :
    DIST (blocking_offset srv) srv.ends = maxdist srv.clients srv.ends := by
  rcases blocking_aux_dist srv.clients srv.ends 0 srv.ends (by simp [DIST])
    with ⟨h1, h2⟩
  unfold blocking_offset
  rw [h1, h2]
  omega

/-- Arithmetic core of `room_to_write`: going one before the blocking
offset and measuring from `end` yields capacity minus one minus the
blocking distance. -/
lemma room_formula (b e : Nat) (hb : b < KCHAT_BUF) (he : e < KCHAT_BUF) :
    DIST e ((b + KCHAT_BUF - 1) % KCHAT_BUF) = KCHAT_BUF - 1 - DIST b e := by
  simp only [DIST, KCHAT_BUF] at *
  split_ifs <;> omega

lemma room_eq (srv : KchatServer) (he : srv.ends < KCHAT_BUF)
    (hc : ∀ c ∈ srv.clients, c < KCHAT_BUF) :
    room_to_write srv = KCHAT_BUF - 1 - maxdist srv.clients srv.ends := by
  unfold room_to_write
  rw [room_formula _ _ (blocking_offset_lt srv he hc) he, blocking_offset_dist]

/-- Membership bound: each client's distance is at most the maximum. -/
lemma dist_le_maxdist (cs : List Nat) (e c : Nat) (h : c ∈ cs) :
    DIST c e ≤ maxdist cs e := by
  induction cs with
  | nil => cases h
  | cons a cs ih =>
    rcases List.mem_cons.mp h with rfl | h
    · rw [maxdist_cons]; omega
    · have := ih h
      rw [maxdist_cons]
      omega

/-- C1: the writable room computed before a write equals
`capacity − 1 − max(dist(client.read_cursor, write_cursor))` over the
attached clients, and equals `capacity − 1` when the client set is
empty. -/
theorem room_matches_spec (srv : KchatServer) (he : srv.ends < KCHAT_BUF)
    (hc : ∀ c ∈ srv.clients, c < KCHAT_BUF) :
    room_to_write srv = KCHAT_BUF - 1 - maxdist srv.clients srv.ends ∧
    (srv.clients = [] → room_to_write srv = KCHAT_BUF - 1) := by
  refine ⟨room_eq srv he hc, fun hnil => ?_⟩
  rw [room_eq srv he hc, hnil]
  simp [maxdist]

/-- Witness for C1 at a concrete state: write cursor 5, clients at
offsets 3 and 5, so the maximum distance is 2 and the room is 2045. -/
theorem room_matches_spec_witness :
    (5 < KCHAT_BUF ∧ ∀ c ∈ [3, 5], c < KCHAT_BUF) ∧
    room_to_write ⟨List.replicate KCHAT_BUF 0, 5, [3, 5]⟩ = KCHAT_BUF - 1 - 2 := by
  refine ⟨⟨by decide, by decide⟩, ?_⟩
  have h := room_matches_spec ⟨List.replicate KCHAT_BUF 0, 5, [3, 5]⟩
    (by decide) (by decide)
  rw [h.1]
  decide

/-- Result of a read or write call.  `ok n` is a nonnegative byte count;
`eagain` is `-EAGAIN` (non-blocking call could not proceed); `suspended`
models a blocking call parked on a wait queue with its condition false;
`erestartsys` is `-ERESTARTSYS` (the interruptible wait was interrupted by
a signal). -/
inductive IoRet where
  | ok (n : Nat)
  | eagain
  | suspended
  | erestartsys
deriving DecidableEq

/-- Wake-ups issued by a call: `rwq` is `wake_up(&srv->rwq)` (readers),
`wwq` is `wake_up(&srv->wwq)` (writers). -/
structure Wakes where
  rwq : Bool
  wwq : Bool
deriving DecidableEq

/-- Loop of `kchat_write`:
`while (room > 0 && amt > 0) { get_user(srv->buffer[srv->end], usrbuf++);
srv->end = (srv->end + 1) % KCHAT_BUF; amt--; room--; bytes_written++; }`.
Returns the buffer, the write cursor and `bytes_written`. -/
def write_loop : List Nat → Nat → Nat → List Nat → List Nat × Nat × Nat
  | buf, e, _, [] => (buf, e, 0)
  | buf, e, 0, _ :: _ => (buf, e, 0)
  | buf, e, room + 1, b :: rest =>
    let r := write_loop (buf.set e b) ((e + 1) % KCHAT_BUF) room rest
    (r.1, r.2.1, r.2.2 + 1)

/-- `kchat_write`: check `room_to_write`; with no room a non-blocking
call returns `-EAGAIN`, a blocking call waits on `wwq` (returning
`-ERESTARTSYS` when the wait is interrupted, modelled by the `interrupt`
flag); otherwise copy `min(room, amt)` bytes at the write cursor and wake
the readers' queue. -/
def kchat_write (srv : KchatServer) (nonblock interrupt : Bool)
    (data : List Nat) : KchatServer × IoRet × Wakes :=
  if room_to_write srv = 0 then
    if nonblock then (srv, IoRet.eagain, ⟨false, false⟩)
    else if interrupt then (srv, IoRet.erestartsys, ⟨false, false⟩)
    else (srv, IoRet.suspended, ⟨false, false⟩)
  else
    let r := write_loop srv.buffer srv.ends (room_to_write srv) data
    ({ srv with buffer := r.1, ends := r.2.1 }, IoRet.ok r.2.2, ⟨true, false⟩)

/-- Loop of `kchat_read`:
`while (length && DIST(cnt->offset, srv->end) > 0) { put_user(...);
length--; cnt->offset = (cnt->offset + 1) % KCHAT_BUF; bytes_read++; }`.
Returns the bytes copied to user space and the final offset. -/
def read_loop : List Nat → Nat → Nat → Nat → List Nat × Nat
  | _, _, off, 0 => ([], off)
  | buf, e, off, len + 1 =>
    if DIST off e > 0 then
      let r := read_loop buf e ((off + 1) % KCHAT_BUF) len
      (buf.getD off 0 :: r.1, r.2)
    else ([], off)

/-- `kchat_read` for the client at index `i` of the client list: with no
unread data a non-blocking call returns `-EAGAIN`, a blocking call waits
on `rwq` (`-ERESTARTSYS` when interrupted); otherwise copy up to `len`
unread bytes, advance the client's offset and wake the writers' queue. -/
def kchat_read (srv : KchatServer) (i : Nat) (len : Nat)
    (nonblock interrupt : Bool) :
    KchatServer × List Nat × IoRet × Wakes :=
  if DIST (srv.clients.getD i 0) srv.ends = 0 then
    if nonblock then (srv, [], IoRet.eagain, ⟨false, false⟩)
    else if interrupt then (srv, [], IoRet.erestartsys, ⟨false, false⟩)
    else (srv, [], IoRet.suspended, ⟨false, false⟩)
  else
    let r := read_loop srv.buffer srv.ends (srv.clients.getD i 0) len
    ({ srv with clients := srv.clients.set i r.2 }, r.1,
      IoRet.ok r.1.length, ⟨false, true⟩)

/-- `create_client`: allocate a client with `offset := srv->end` and
prepend it to the client list (`list_add`).  Returns the new state and
the new client's offset. -/
def create_client (srv : KchatServer) : KchatServer × Nat :=
  ({ srv with clients := srv.ends :: srv.clients }, srv.ends)

/-- `kchat_flush` at the channel level: remove the client at index `i`
from the client list.  The function issues no wake-up on either wait
queue (the source has no `wake_up` call on this path). -/
def kchat_flush (srv : KchatServer) (i : Nat) : KchatServer × Wakes :=
  ({ srv with clients := srv.clients.eraseIdx i }, ⟨false, false⟩)

/-- Unread bytes of a cursor `off`: the `DIST off e` buffer bytes from
`off` forward to the write cursor `e`, in ring order. -/
def unread_bytes (buf : List Nat) (off e : Nat) : List Nat :=
  (List.range (DIST off e)).map (fun k => buf.getD ((off + k) % KCHAT_BUF) 0)

lemma write_loop_ends (S : List Nat) :
    ∀ buf e room, e < KCHAT_BUF →
      (write_loop buf e room S).2.1 = (e + min room S.length) % KCHAT_BUF := by
  induction S with
  | nil => intro buf e room he; simp [write_loop, Nat.mod_eq_of_lt he]
  | cons b rest ih =>
    intro buf e room he
    match room with
    | 0 => simp [write_loop, Nat.mod_eq_of_lt he]
    | r + 1 =>
      simp only [write_loop]
      rw [ih (buf.set e b) ((e + 1) % KCHAT_BUF) r
        (Nat.mod_lt _ (by simp [KCHAT_BUF]))]
      simp only [List.length_cons, KCHAT_BUF]
      omega

lemma write_loop_count (S : List Nat) :
    ∀ buf e room, (write_loop buf e room S).2.2 = min room S.length := by
  induction S with
  | nil => intro buf e room; simp [write_loop]
  | cons b rest ih =>
    intro buf e room
    match room with
    | 0 => simp [write_loop]
    | r + 1 =>
      simp only [write_loop, List.length_cons]
      rw [ih]
      omega

lemma write_loop_len (S : List Nat) :
    ∀ buf e room, (write_loop buf e room S).1.length = buf.length := by
  induction S with
  | nil => intro buf e room; simp [write_loop]
  | cons b rest ih =>
    intro buf e room
    match room with
    | 0 => simp [write_loop]
    | r + 1 =>
      simp only [write_loop]
      rw [ih]
      simp

lemma read_loop_off_lt (len : Nat) :
    ∀ buf e off, off < KCHAT_BUF →
      (read_loop buf e off len).2 < KCHAT_BUF := by
  induction len with
  | zero => intro buf e off h; simpa [read_loop] using h
  | succ n ih =>
    intro buf e off h
    simp only [read_loop]
    by_cases hd : DIST off e > 0
    · rw [if_pos hd]
      exact ih buf e _ (Nat.mod_lt _ (by simp [KCHAT_BUF]))
    · rw [if_neg hd]
      exact h

lemma dist_succ_end (off e : Nat) (hoff : off < KCHAT_BUF)
    (he : e < KCHAT_BUF) (hd : DIST off e < KCHAT_BUF - 1) :
    DIST off ((e + 1) % KCHAT_BUF) = DIST off e + 1 := by
  simp only [DIST, KCHAT_BUF] at *
  split_ifs at * <;> omega

lemma dist_window_ne (off e k : Nat) (hoff : off < KCHAT_BUF)
    (he : e < KCHAT_BUF) (hk : k < DIST off e) :
    (off + k) % KCHAT_BUF ≠ e := by
  simp only [DIST, KCHAT_BUF] at *
  split_ifs at hk <;> omega

lemma dist_window_end (off e : Nat) (hoff : off < KCHAT_BUF)
    (he : e < KCHAT_BUF) :
    (off + DIST off e) % KCHAT_BUF = e := by
  simp only [DIST, KCHAT_BUF] at *
  split_ifs <;> omega

lemma dist_zero_eq (off e : Nat) (hoff : off < KCHAT_BUF)
    (he : e < KCHAT_BUF) (h : DIST off e = 0) : off = e := by
  simp only [DIST, KCHAT_BUF] at *
  split_ifs at h <;> omega

lemma dist_succ_off (off e : Nat) (hoff : off < KCHAT_BUF)
    (he : e < KCHAT_BUF) (hd : 0 < DIST off e) :
    DIST ((off + 1) % KCHAT_BUF) e = DIST off e - 1 := by
  simp only [DIST, KCHAT_BUF] at *
  split_ifs at * <;> omega

/-- Appending one byte at the write cursor extends every observer's
unread window by exactly that byte, provided the window is not already
at the one-byte-gap maximum. -/
lemma unread_set (buf : List Nat) (off e b : Nat) (hoff : off < KCHAT_BUF)
    (he : e < KCHAT_BUF) (hlen : buf.length = KCHAT_BUF)
    (hd : DIST off e < KCHAT_BUF - 1) :
    unread_bytes (buf.set e b) off ((e + 1) % KCHAT_BUF) =
      unread_bytes buf off e ++ [b] := by
  unfold unread_bytes
  rw [dist_succ_end off e hoff he hd, List.range_succ, List.map_append]
  congr 1
  · apply List.map_congr_left
    intro k hk
    have hk' : k < DIST off e := List.mem_range.mp hk
    simp only [List.getD_eq_getElem?_getD]
    rw [List.getElem?_set_ne (fun h => dist_window_ne off e k hoff he hk' h.symm)]
  · simp only [List.map_cons, List.map_nil]
    rw [dist_window_end off e hoff he]
    simp only [List.getD_eq_getElem?_getD]
    rw [List.getElem?_set_self (by omega)]
    rfl

/-- Writing a byte sequence `S` that fits in the available window
appends exactly `S` to every observer's unread window. -/
lemma write_unread (S : List Nat) :
    ∀ buf e room off, e < KCHAT_BUF → off < KCHAT_BUF →
      buf.length = KCHAT_BUF → S.length ≤ room →
      DIST off e + S.length ≤ KCHAT_BUF - 1 →
      unread_bytes (write_loop buf e room S).1 off
        (write_loop buf e room S).2.1 =
      unread_bytes buf off e ++ S := by
  induction S with
  | nil => intro buf e room off he hoff hlen hroom hfit; simp [write_loop]
  | cons b rest ih =>
    intro buf e room off he hoff hlen hroom hfit
    match room with
    | 0 => simp at hroom
    | r + 1 =>
      simp only [write_loop]
      have hd : DIST off e < KCHAT_BUF - 1 := by
        simp only [List.length_cons] at hfit; omega
      have he' : (e + 1) % KCHAT_BUF < KCHAT_BUF :=
        Nat.mod_lt _ (by simp [KCHAT_BUF])
      rw [ih (buf.set e b) ((e + 1) % KCHAT_BUF) r off he' hoff
        (by simpa using hlen)
        (by simpa using hroom)
        (by rw [dist_succ_end off e hoff he hd]
            simp only [List.length_cons] at hfit; omega)]
      rw [unread_set buf off e b hoff he hlen hd]
      simp

/-- Reading one byte shifts the unread window by one. -/
lemma unread_cons (buf : List Nat) (off e : Nat) (hoff : off < KCHAT_BUF)
    (he : e < KCHAT_BUF) (hd : 0 < DIST off e) :
    unread_bytes buf off e =
      buf.getD off 0 :: unread_bytes buf ((off + 1) % KCHAT_BUF) e := by
  unfold unread_bytes
  rw [dist_succ_off off e hoff he hd]
  obtain ⟨d, hd'⟩ : ∃ d, DIST off e = d + 1 :=
    ⟨DIST off e - 1, by omega⟩
  rw [hd']
  simp only [Nat.add_sub_cancel]
  rw [List.range_succ_eq_map, List.map_cons, List.map_map]
  congr 1
  · rw [Nat.add_zero, Nat.mod_eq_of_lt hoff]
  · apply List.map_congr_left
    intro k _
    simp only [Function.comp_apply, Nat.succ_eq_add_one]
    rw [Nat.mod_add_mod]
    congr 2
    omega

/-- A read request large enough to drain the window returns exactly the
unread bytes and leaves the cursor at the write cursor. -/
lemma read_loop_spec (len : Nat) :
    ∀ buf e off, off < KCHAT_BUF → e < KCHAT_BUF → DIST off e ≤ len →
      read_loop buf e off len = (unread_bytes buf off e, e) := by
  induction len with
  | zero =>
    intro buf e off hoff he hd
    have h0 : DIST off e = 0 := Nat.le_zero.mp hd
    have heq := dist_zero_eq off e hoff he h0
    subst heq
    simp [read_loop, unread_bytes, h0]
  | succ n ih =>
    intro buf e off hoff he hd
    simp only [read_loop]
    by_cases hpos : DIST off e > 0
    · rw [if_pos hpos]
      have hoff' : (off + 1) % KCHAT_BUF < KCHAT_BUF :=
        Nat.mod_lt _ (by simp [KCHAT_BUF])
      have hd' : DIST ((off + 1) % KCHAT_BUF) e ≤ n := by
        rw [dist_succ_off off e hoff he hpos]; omega
      rw [ih buf e _ hoff' he hd']
      rw [unread_cons buf off e hoff he hpos]
    · rw [if_neg hpos]
      have h0 : DIST off e = 0 := by omega
      have heq := dist_zero_eq off e hoff he h0
      subst heq
      simp [unread_bytes, h0]

/-- Length of the unread window. -/
lemma unread_length (buf : List Nat) (off e : Nat) :
    (unread_bytes buf off e).length = DIST off e := by
  simp [unread_bytes]

lemma getD_mem_of_lt (l : List Nat) (i : Nat) (h : i < l.length) :
    l.getD i 0 ∈ l := by
  rw [List.getD_eq_getElem?_getD, List.getElem?_eq_getElem h]
  exact List.getElem_mem h

/-- C2: writing `S` when the room is at least `len(S)` is fully accepted,
and every attached client that then keeps reading receives its previous
backlog followed by exactly the bytes of `S`, in order, with no gaps and
no duplication; a client that was caught up receives exactly `S`. -/
theorem write_read_round_trip (srv : KchatServer) (S : List Nat)
    (hlen : srv.buffer.length = KCHAT_BUF) (he : srv.ends < KCHAT_BUF)
    (hc : ∀ c ∈ srv.clients, c < KCHAT_BUF)
    (hS : 0 < S.length) (hroom : S.length ≤ room_to_write srv) :
    (kchat_write srv false false S).2.1 = IoRet.ok S.length ∧
    ∀ i, i < srv.clients.length → ∀ L,
      DIST (srv.clients.getD i 0) (kchat_write srv false false S).1.ends ≤ L →
      (kchat_read (kchat_write srv false false S).1 i L false false).2.1 =
        unread_bytes srv.buffer (srv.clients.getD i 0) srv.ends ++ S ∧
      (srv.clients.getD i 0 = srv.ends →
        (kchat_read (kchat_write srv false false S).1 i L false false).2.1 = S) := by
  have hr0 : ¬(room_to_write srv = 0) := by omega
  have hmax : room_to_write srv = KCHAT_BUF - 1 - maxdist srv.clients srv.ends :=
    room_eq srv he hc
  constructor
  · simp only [kchat_write, if_neg hr0]
    rw [write_loop_count]
    rw [Nat.min_eq_right hroom]
  · intro i hi L hL
    have hmem : srv.clients.getD i 0 ∈ srv.clients := getD_mem_of_lt _ _ hi
    have hoff : srv.clients.getD i 0 < KCHAT_BUF := hc _ hmem
    have hdle : DIST (srv.clients.getD i 0) srv.ends ≤ maxdist srv.clients srv.ends :=
      dist_le_maxdist _ _ _ hmem
    have hfit : DIST (srv.clients.getD i 0) srv.ends + S.length ≤ KCHAT_BUF - 1 := by
      rw [hmax] at hroom
      simp only [KCHAT_BUF] at *
      omega
    have hw := write_unread S srv.buffer srv.ends (room_to_write srv)
      (srv.clients.getD i 0) he hoff hlen hroom hfit
    have he' : (write_loop srv.buffer srv.ends (room_to_write srv) S).2.1 < KCHAT_BUF := by
      rw [write_loop_ends S _ _ _ he]
      exact Nat.mod_lt _ (by simp [KCHAT_BUF])
    have hd' : DIST (srv.clients.getD i 0)
        (write_loop srv.buffer srv.ends (room_to_write srv) S).2.1 =
        DIST (srv.clients.getD i 0) srv.ends + S.length := by
      have := unread_length (write_loop srv.buffer srv.ends (room_to_write srv) S).1
        (srv.clients.getD i 0) (write_loop srv.buffer srv.ends (room_to_write srv) S).2.1
      rw [hw] at this
      simp only [List.length_append, unread_length] at this
      omega
    have hpos : ¬(DIST (srv.clients.getD i 0)
        (write_loop srv.buffer srv.ends (room_to_write srv) S).2.1 = 0) := by
      rw [hd']; omega
    simp only [kchat_write, if_neg hr0] at hL ⊢
    simp only [kchat_read, if_neg hpos]
    rw [read_loop_spec L _ _ _ hoff he' (by rw [hd']; rw [hd'] at hL; exact hL)]
    refine ⟨hw, fun hcaught => ?_⟩
    rw [hw, hcaught]
    simp [unread_bytes, DIST]

/-- Witness for C2: one caught-up client at offset 0, write cursor 0,
write the two bytes `[72, 73]`; reading 2 bytes afterwards yields exactly
`[72, 73]`. -/
theorem write_read_round_trip_witness :
    (kchat_write ⟨List.replicate KCHAT_BUF 0, 0, [0]⟩ false false [72, 73]).2.1 =
      IoRet.ok 2 ∧
    (kchat_read (kchat_write ⟨List.replicate KCHAT_BUF 0, 0, [0]⟩ false false
      [72, 73]).1 0 2 false false).2.1 = [72, 73] := by
  have h := write_read_round_trip ⟨List.replicate KCHAT_BUF 0, 0, [0]⟩ [72, 73]
    (by rw [List.length_replicate]) (by decide) (by decide) (by decide)
    (by decide)
  refine ⟨h.1, ?_⟩
  have h2 := (h.2 0 (by decide) 2 (by decide)).2 (by decide)
  exact h2

lemma room_congr (srv srv' : KchatServer) (h1 : srv.ends = srv'.ends)
    (h2 : srv.clients = srv'.clients) :
    room_to_write srv = room_to_write srv' := by
  unfold room_to_write blocking_offset
  rw [h1, h2]

lemma dist_add (c e n : Nat) (hc : c < KCHAT_BUF) (he : e < KCHAT_BUF)
    (hfit : DIST c e + n ≤ KCHAT_BUF - 1) :
    DIST c ((e + n) % KCHAT_BUF) = DIST c e + n := by
  simp only [DIST, KCHAT_BUF] at *
  split_ifs at * <;> omega

lemma maxdist_le (cs : List Nat) (e : Nat) (he : e < KCHAT_BUF)
    (hc : ∀ c ∈ cs, c < KCHAT_BUF) :
    maxdist cs e ≤ KCHAT_BUF - 1 := by
  induction cs with
  | nil => simp [maxdist, KCHAT_BUF]
  | cons c cs ih =>
    rw [maxdist_cons]
    have h1 : DIST c e ≤ KCHAT_BUF - 1 := by
      have := hc c (List.mem_cons_self c cs)
      simp only [DIST, KCHAT_BUF] at *
      split_ifs <;> omega
    have h2 := ih (fun c h => hc c (List.mem_cons_of_mem _ h))
    omega

/-- Advancing the write cursor by `n` bytes that fit in the window adds
exactly `n` to the maximum unread distance. -/
lemma maxdist_shift (cs : List Nat) (e n : Nat) (he : e < KCHAT_BUF)
    (hcs : cs ≠ []) (hc : ∀ c ∈ cs, c < KCHAT_BUF)
    (hfit : maxdist cs e + n ≤ KCHAT_BUF - 1) :
    maxdist cs ((e + n) % KCHAT_BUF) = maxdist cs e + n := by
  induction cs with
  | nil => exact absurd rfl hcs
  | cons c cs ih =>
    simp only [maxdist_cons] at hfit ⊢
    have hcc : c < KCHAT_BUF := hc c (List.mem_cons_self c cs)
    have hda : DIST c ((e + n) % KCHAT_BUF) = DIST c e + n :=
      dist_add c e n hcc he (by omega)
    match cs with
    | [] =>
      rw [hda]
      simp only [maxdist, List.foldr]
      omega
    | c' :: cs' =>
      have hih := ih (by simp) (fun x h => hc x (List.mem_cons_of_mem _ h))
        (by omega)
      rw [hda, hih]
      rcases Nat.le_total (DIST c e) (maxdist (c' :: cs') e) with hle | hle
      · rw [Nat.max_eq_right (by omega), Nat.max_eq_right hle]
      · rw [Nat.max_eq_left (by omega), Nat.max_eq_left hle]

/-- Concrete states for the C3 counterexample: a client attaches at write
cursor 8, the writer emits 2040 bytes (reaching cursor 0), then emits 7
more bytes, exactly filling the available room. -/
def srv_c3a : KchatServer := ⟨List.replicate KCHAT_BUF 0, 8, [8]⟩

def srv_c3b : KchatServer :=
  (kchat_write srv_c3a false false (List.replicate 2040 65)).1

def srv_c3c : KchatServer :=
  (kchat_write srv_c3b false false (List.replicate 7 66)).1

lemma roomA_ne : ¬(room_to_write srv_c3a = 0) := by decide

lemma srv_c3b_ends : srv_c3b.ends = 0 := by
  simp only [srv_c3b, kchat_write, if_neg roomA_ne]
  rw [write_loop_ends _ _ _ _ (by decide)]
  have : room_to_write srv_c3a = 2047 := by decide
  rw [this, List.length_replicate]
  decide

lemma srv_c3b_clients : srv_c3b.clients = [8] := by
  simp only [srv_c3b, kchat_write, if_neg roomA_ne]
  decide

lemma roomB : room_to_write srv_c3b = 7 := by
  rw [room_congr srv_c3b ⟨[], 0, [8]⟩ srv_c3b_ends srv_c3b_clients]
  decide

lemma roomB_ne : ¬(room_to_write srv_c3b = 0) := by rw [roomB]; decide

lemma srv_c3c_ends : srv_c3c.ends = 7 := by
  simp only [srv_c3c, kchat_write, if_neg roomB_ne]
  rw [write_loop_ends _ _ _ _ (by rw [srv_c3b_ends]; decide)]
  rw [srv_c3b_ends, roomB, List.length_replicate]
  decide

lemma srv_c3c_clients : srv_c3c.clients = [8] := by
  simp only [srv_c3c, kchat_write, if_neg roomB_ne]
  exact srv_c3b_clients

/-- Counterexample to C3 as stated: a write CAN make the slowest client's
distance reach exactly `capacity − 1` (the one-byte-gap full state)
without that client consuming anything.  Here the second write is fully
accepted, the client list is unchanged (no consumption), and the distance
goes from 2040 to 2047 = `KCHAT_BUF − 1`. -/
theorem write_reaches_gap_counterexample :
    (kchat_write srv_c3b false false (List.replicate 7 66)).2.1 = IoRet.ok 7 ∧
    srv_c3c.clients = [8] ∧ srv_c3b.clients = [8] ∧
    DIST (srv_c3b.clients.getD 0 0) srv_c3b.ends < KCHAT_BUF - 1 ∧
    DIST (srv_c3c.clients.getD 0 0) srv_c3c.ends = KCHAT_BUF - 1 := by
  refine ⟨?_, srv_c3c_clients, srv_c3b_clients, ?_, ?_⟩
  · simp only [kchat_write, if_neg roomB_ne]
    rw [write_loop_count, roomB, List.length_replicate]
    decide
  · rw [srv_c3b_clients, srv_c3b_ends]; decide
  · rw [srv_c3c_clients, srv_c3c_ends]; decide

/-- C3 amended: a write with `room_to_write == 0` returns `-EAGAIN` when
non-blocking and otherwise suspends (or is interrupted) leaving the state
unchanged; and a completed write of `n` bytes accepts at most `room`
bytes and advances the slowest client's distance to exactly its old value
plus `n`, which never exceeds `capacity − 1` (it reaches `capacity − 1`
precisely when the write fills all the room). -/
theorem write_room_zero_blocks_and_no_overwrite (srv : KchatServer)
    (data : List Nat) (nonblock interrupt : Bool)
    (he : srv.ends < KCHAT_BUF) (hc : ∀ c ∈ srv.clients, c < KCHAT_BUF)
    (hne : srv.clients ≠ []) :
    (room_to_write srv = 0 →
      (nonblock = true →
        kchat_write srv nonblock interrupt data = (srv, IoRet.eagain, ⟨false, false⟩)) ∧
      (nonblock = false → (kchat_write srv nonblock interrupt data).1 = srv ∧
        ((kchat_write srv nonblock interrupt data).2.1 = IoRet.suspended ∨
         (kchat_write srv nonblock interrupt data).2.1 = IoRet.erestartsys))) ∧
    (∀ n, (kchat_write srv nonblock interrupt data).2.1 = IoRet.ok n →
      n ≤ room_to_write srv ∧
      maxdist (kchat_write srv nonblock interrupt data).1.clients
          (kchat_write srv nonblock interrupt data).1.ends =
        maxdist srv.clients srv.ends + n ∧
      maxdist (kchat_write srv nonblock interrupt data).1.clients
          (kchat_write srv nonblock interrupt data).1.ends ≤ KCHAT_BUF - 1) := by
  by_cases hr : room_to_write srv = 0
  · refine ⟨fun _ => ⟨fun hnb => ?_, fun hnb => ?_⟩, fun n hok => ?_⟩
    · subst hnb; simp [kchat_write, hr]
    · subst hnb
      cases interrupt <;> simp [kchat_write, hr]
    · exfalso
      cases nonblock <;> cases interrupt <;>
        simp [kchat_write, hr] at hok
  · refine ⟨fun h0 => absurd h0 hr, fun n hok => ?_⟩
    simp only [kchat_write, if_neg hr] at hok ⊢
    rw [write_loop_count] at hok
    have hn : n = min (room_to_write srv) data.length := by
      cases hok; rfl
    have hmle : maxdist srv.clients srv.ends ≤ KCHAT_BUF - 1 :=
      maxdist_le srv.clients srv.ends he hc
    have hroom : room_to_write srv = KCHAT_BUF - 1 - maxdist srv.clients srv.ends :=
      room_eq srv he hc
    have hfit : maxdist srv.clients srv.ends + n ≤ KCHAT_BUF - 1 := by
      simp only [KCHAT_BUF] at *
      omega
    refine ⟨by omega, ?_, ?_⟩
    · rw [write_loop_ends _ _ _ _ he, ← hn]
      exact maxdist_shift srv.clients srv.ends n he hne hc hfit
    · rw [write_loop_ends _ _ _ _ he, ← hn]
      rw [maxdist_shift srv.clients srv.ends n he hne hc hfit]
      exact hfit

/-- Witness for the amended C3 at a concrete state: one client at offset
0, write cursor 0, a 1-byte write is accepted and the slowest distance
becomes 0 + 1 = 1 ≤ 2047. -/
theorem write_room_zero_blocks_and_no_overwrite_witness :
    1 ≤ room_to_write ⟨List.replicate KCHAT_BUF 0, 0, [0]⟩ ∧
    maxdist (kchat_write ⟨List.replicate KCHAT_BUF 0, 0, [0]⟩ false false [65]).1.clients
      (kchat_write ⟨List.replicate KCHAT_BUF 0, 0, [0]⟩ false false [65]).1.ends = 1 := by
  have h := write_room_zero_blocks_and_no_overwrite
    ⟨List.replicate KCHAT_BUF 0, 0, [0]⟩ [65] false false
    (by decide) (by decide) (by decide)
  have h2 := h.2 1 (by decide)
  refine ⟨h2.1, ?_⟩
  rw [h2.2.1]
  decide

/-- Concrete state for C4: write cursor 0 with a slow client at offset 1
(distance 2047, so the room is 0) and a caught-up client at offset 0. -/
def srv_c4 : KchatServer := ⟨List.replicate KCHAT_BUF 0, 0, [1, 0]⟩

/-- C4: the code does NOT implement the claimed behavior.  With the room
at 0 a blocking writer suspends on `wwq`; detaching the slow client makes
the room positive, yet `kchat_flush` issues no wake-up on either wait
queue (the wake flags are both false), so the suspended writer is never
re-evaluated.  The only `wake_up(&srv->wwq)` in the source is in
`kchat_read`. -/
theorem flush_issues_no_writer_wake :
    room_to_write srv_c4 = 0 ∧
    (kchat_write srv_c4 false false [65]).2.1 = IoRet.suspended ∧
    room_to_write (kchat_flush srv_c4 0).1 > 0 ∧
    (kchat_flush srv_c4 0).2.wwq = false ∧
    (kchat_flush srv_c4 0).2.rwq = false := by
  refine ⟨by decide, ?_, by decide, by decide, by decide⟩
  have h : room_to_write srv_c4 = 0 := by decide
  simp [kchat_write, h]

/-- Concrete state for C5/C9: write cursor 0 with a client at offset 1,
so the room is 0. -/
def srv_c5 : KchatServer := ⟨List.replicate KCHAT_BUF 0, 0, [1]⟩

/-- Counterexample to C5 as stated: a non-blocking write with zero room
returns `-EAGAIN`, not an accepted byte count of 0. -/
theorem nonblock_write_no_room_counterexample :
    room_to_write srv_c5 = 0 ∧
    (kchat_write srv_c5 true false [65]).2.1 = IoRet.eagain ∧
    (kchat_write srv_c5 true false [65]).2.1 ≠ IoRet.ok 0 := by
  refine ⟨by decide, ?_, ?_⟩ <;>
    · have h : room_to_write srv_c5 = 0 := by decide
      simp [kchat_write, h]

/-- C5 amended: a non-blocking write with zero room fails with the
would-block error `-EAGAIN` (leaving the state unchanged) rather than
returning 0; with nonzero room a write returns the number of bytes
accepted, `min(room, len)`; and a blocking write whose wait for room is
interrupted returns `-ERESTARTSYS`. -/
theorem write_call_results (srv : KchatServer) (data : List Nat)
    (interrupt : Bool) :
    (room_to_write srv = 0 →
      (kchat_write srv true interrupt data).2.1 = IoRet.eagain ∧
      (kchat_write srv true interrupt data).1 = srv) ∧
    (room_to_write srv ≠ 0 → ∀ nonblock,
      (kchat_write srv nonblock interrupt data).2.1 =
        IoRet.ok (min (room_to_write srv) data.length)) ∧
    (room_to_write srv = 0 → interrupt = true →
      (kchat_write srv false interrupt data).2.1 = IoRet.erestartsys) := by
  refine ⟨fun h => ?_, fun h nonblock => ?_, fun h hi => ?_⟩
  · simp [kchat_write, h]
  · simp only [kchat_write, if_neg h]
    rw [write_loop_count]
  · subst hi
    simp [kchat_write, h]

/-- Witness for the amended C5: with zero room the non-blocking write of
one byte returns `-EAGAIN`; with room 2047 a 3-byte write returns 3. -/
theorem write_call_results_witness :
    (kchat_write srv_c5 true false [65]).2.1 = IoRet.eagain ∧
    (kchat_write ⟨List.replicate KCHAT_BUF 0, 0, [0]⟩ true false
      [65, 66, 67]).2.1 = IoRet.ok 3 := by
  have h1 := (write_call_results srv_c5 [65] false).1 (by decide)
  have h2 := (write_call_results ⟨List.replicate KCHAT_BUF 0, 0, [0]⟩
    [65, 66, 67] false).2.1 (by decide) true
  refine ⟨h1.1, ?_⟩
  rw [h2]
  decide

/-- C6: a blocking read that finds no data and is interrupted during the
wait returns `-ERESTARTSYS` with the whole state — in particular the
client's read offset — exactly as it was before the call, and issues no
wake-up. -/
theorem read_interrupted_cursor_unchanged (srv : KchatServer) (i len : Nat)
    (hnodata : DIST (srv.clients.getD i 0) srv.ends = 0) :
    kchat_read srv i len false true =
      (srv, [], IoRet.erestartsys, ⟨false, false⟩) := by
  unfold kchat_read
  rw [if_pos hnodata]
  rfl

/-- Witness for C6: a caught-up client (offset 0 = write cursor) whose
blocking read is interrupted. -/
theorem read_interrupted_cursor_unchanged_witness :
    DIST (([0] : List Nat).getD 0 0) 0 = 0 ∧
    kchat_read ⟨List.replicate KCHAT_BUF 0, 0, [0]⟩ 0 5 false true =
      (⟨List.replicate KCHAT_BUF 0, 0, [0]⟩, [], IoRet.erestartsys,
        ⟨false, false⟩) :=
  ⟨by decide,
    read_interrupted_cursor_unchanged ⟨List.replicate KCHAT_BUF 0, 0, [0]⟩ 0 5
      (by decide)⟩

/-- C9: a write request of length zero when the room is zero does not
return 0: the length is never consulted before the room check, so the
non-blocking call fails with `-EAGAIN` and the blocking call suspends
waiting for room. -/
theorem zero_length_write_still_blocks (srv : KchatServer)
    (hroom : room_to_write srv = 0) :
    (kchat_write srv true false []).2.1 = IoRet.eagain ∧
    (kchat_write srv false false []).2.1 = IoRet.suspended ∧
    ∀ n, (kchat_write srv true false []).2.1 ≠ IoRet.ok n := by
  simp [kchat_write, hroom]

/-- Witness for C9 at the zero-room state `srv_c5`. -/
theorem zero_length_write_still_blocks_witness :
    room_to_write srv_c5 = 0 ∧
    (kchat_write srv_c5 true false []).2.1 = IoRet.eagain ∧
    (kchat_write srv_c5 false false []).2.1 = IoRet.suspended :=
  ⟨by decide,
    (zero_length_write_still_blocks srv_c5 (by decide)).1,
    (zero_length_write_still_blocks srv_c5 (by decide)).2.1⟩

/-- Poll bit masks from linux/poll.h. -/
def POLLIN : Nat := 1
def POLLOUT : Nat := 4
def POLLRDNORM : Nat := 64
def POLLWRNORM : Nat := 256

/-- `kchat_poll` for the client at index `i`: set `POLLIN | POLLRDNORM`
when the client has unread data and `POLLOUT | POLLWRNORM` when there is
room to write. -/
def kchat_poll (srv : KchatServer) (i : Nat) : Nat :=
  (if DIST (srv.clients.getD i 0) srv.ends > 0 then POLLIN ||| POLLRDNORM
   else 0) |||
  (if room_to_write srv > 0 then POLLOUT ||| POLLWRNORM else 0)

/-- C7: the readiness mask reports readable exactly when
`dist(read_cursor, write_cursor) > 0` and writable exactly when the
write-room computation yields a positive value. -/
theorem poll_readiness (srv : KchatServer) (i : Nat) :
    (kchat_poll srv i &&& POLLIN ≠ 0 ↔
      DIST (srv.clients.getD i 0) srv.ends > 0) ∧
    (kchat_poll srv i &&& POLLOUT ≠ 0 ↔ room_to_write srv > 0) := by
  unfold kchat_poll
  by_cases h1 : DIST (srv.clients.getD i 0) srv.ends > 0 <;>
    by_cases h2 : room_to_write srv > 0
  · rw [if_pos h1, if_pos h2]
    exact ⟨iff_of_true (by decide) h1, iff_of_true (by decide) h2⟩
  · rw [if_pos h1, if_neg h2]
    exact ⟨iff_of_true (by decide) h1, iff_of_false (by decide) h2⟩
  · rw [if_neg h1, if_pos h2]
    exact ⟨iff_of_false (by decide) h1, iff_of_true (by decide) h2⟩
  · rw [if_neg h1, if_neg h2]
    exact ⟨iff_of_false (by decide) h1, iff_of_false (by decide) h2⟩

/-- C10: cursor-range invariant.  `create_client` initializes the new
client's offset to the write cursor and keeps the state valid, and both
`kchat_read` and `kchat_write` keep the write cursor and every client
offset in `[0, KCHAT_BUF)`, since cursors only advance modulo the
capacity. -/
theorem operations_preserve_cursor_range (srv : KchatServer)
    (i len : Nat) (nonblock interrupt : Bool) (data : List Nat)
    (hv : validServer srv) :
    validServer (create_client srv).1 ∧ (create_client srv).2 = srv.ends ∧
    validServer (kchat_read srv i len nonblock interrupt).1 ∧
    validServer (kchat_write srv nonblock interrupt data).1 := by
  obtain ⟨he, hc⟩ := hv
  refine ⟨⟨he, ?_⟩, rfl, ?_, ?_⟩
  · intro c hc'
    rcases List.mem_cons.mp hc' with rfl | h
    · exact he
    · exact hc c h
  · unfold kchat_read
    by_cases h0 : DIST (srv.clients.getD i 0) srv.ends = 0
    · rw [if_pos h0]
      cases nonblock <;> cases interrupt <;> exact ⟨he, hc⟩
    · rw [if_neg h0]
      refine ⟨he, fun c hmem => ?_⟩
      rcases List.mem_or_eq_of_mem_set hmem with h | rfl
      · exact hc c h
      · have hofflt : srv.clients.getD i 0 < KCHAT_BUF := by
          by_cases hi : i < srv.clients.length
          · exact hc _ (getD_mem_of_lt _ _ hi)
          · rw [List.getD_eq_default _ _ (by omega)]
            simp [KCHAT_BUF]
        exact read_loop_off_lt len _ _ _ hofflt
  · unfold kchat_write
    by_cases h0 : room_to_write srv = 0
    · rw [if_pos h0]
      cases nonblock <;> cases interrupt <;> exact ⟨he, hc⟩
    · rw [if_neg h0]
      refine ⟨?_, hc⟩
      show (write_loop srv.buffer srv.ends (room_to_write srv) data).2.1 < KCHAT_BUF
      rw [write_loop_ends _ _ _ _ he]
      exact Nat.mod_lt _ (by simp [KCHAT_BUF])

/-- Witness for C10 at a concrete valid state. -/
theorem operations_preserve_cursor_range_witness :
    validServer ⟨List.replicate KCHAT_BUF 0, 3, [2, 3]⟩ ∧
    validServer (create_client ⟨List.replicate KCHAT_BUF 0, 3, [2, 3]⟩).1 ∧
    (create_client ⟨List.replicate KCHAT_BUF 0, 3, [2, 3]⟩).2 = 3 ∧
    validServer (kchat_read ⟨List.replicate KCHAT_BUF 0, 3, [2, 3]⟩
      0 4 false false).1 ∧
    validServer (kchat_write ⟨List.replicate KCHAT_BUF 0, 3, [2, 3]⟩
      false false [65]).1 := by
  have h := operations_preserve_cursor_range ⟨List.replicate KCHAT_BUF 0, 3, [2, 3]⟩
    0 4 false false [65] ⟨by decide, by decide⟩
  exact ⟨⟨by decide, by decide⟩, h.1, h.2.1, h.2.2.1, h.2.2.2⟩

/-- Lookup in the global `server_list` by inode, first match. -/
def lookup_server : List (Nat × KchatServer) → Nat → Option KchatServer
  | [], _ => none
  | (k, s) :: rest, inode =>
    if k = inode then some s else lookup_server rest inode

/-- In-place mutation of the first server with the given inode. -/
def update_server : List (Nat × KchatServer) → Nat → KchatServer →
    List (Nat × KchatServer)
  | [], _, _ => []
  | (k, s) :: rest, inode, s' =>
    if k = inode then (k, s') :: rest
    else (k, s) :: update_server rest inode s'

/-- Removal (`list_del` + `kfree`) of the first server with the inode. -/
def remove_server : List (Nat × KchatServer) → Nat →
    List (Nat × KchatServer)
  | [], _ => []
  | (k, s) :: rest, inode =>
    if k = inode then rest else (k, s) :: remove_server rest inode

/-- Freshly created server (`create_server`): `end = 0`, no clients. -/
def newServer : KchatServer := ⟨List.replicate KCHAT_BUF 0, 0, []⟩

def ENOMEM : Int := 12

/-- `kchat_open`: `get_server` finds the inode's server or creates one
(prepended to the global list, or fails when allocation fails); then
`create_client` attaches a client (or fails); on client-allocation
failure `check_free_server` frees the server exactly when its client
list is empty.  Returns the resulting server list and 0 or `-ENOMEM`. -/
def kchat_open (reg : List (Nat × KchatServer)) (inode : Nat)
    (srvAllocOk clientAllocOk : Bool) : List (Nat × KchatServer) × Int :=
  match lookup_server reg inode with
  | some srv =>
    if clientAllocOk then
      (update_server reg inode (create_client srv).1, 0)
    else
      (if srv.clients = [] then remove_server reg inode else reg, -ENOMEM)
  | none =>
    if srvAllocOk then
      if clientAllocOk then
        ((inode, (create_client newServer).1) :: reg, 0)
      else
        (if newServer.clients = [] then
          remove_server ((inode, newServer) :: reg) inode
        else (inode, newServer) :: reg, -ENOMEM)
    else (reg, -ENOMEM)

/-- C8: when client allocation fails, `kchat_open` fails with `-ENOMEM`
and the server list is exactly as before the call: a server created
solely for this open is removed again (its client list is empty), and a
pre-existing server with clients is left untouched. -/
theorem open_client_alloc_failure_rollback (reg : List (Nat × KchatServer))
    (inode : Nat) (srvAllocOk : Bool) :
    (kchat_open reg inode srvAllocOk false).2 = -ENOMEM ∧
    (∀ srv, lookup_server reg inode = some srv → srv.clients ≠ [] →
      (kchat_open reg inode srvAllocOk false).1 = reg) ∧
    (lookup_server reg inode = none →
      (kchat_open reg inode srvAllocOk false).1 = reg) := by
  cases hl : lookup_server reg inode with
  | some srv =>
    refine ⟨?_, ?_, ?_⟩
    · simp [kchat_open, hl]
    · intro srv' hsome hne
      injection hsome with hs
      subst hs
      simp [kchat_open, hl, hne]
    · intro hnone
      cases hnone
  | none =>
    refine ⟨?_, ?_, ?_⟩
    · cases srvAllocOk <;> simp [kchat_open, hl, newServer, remove_server]
    · intro srv' hsome hne
      cases hsome
    · intro _
      cases srvAllocOk <;> simp [kchat_open, hl, newServer, remove_server]

/-- Witness for C8: a registry holding one server for inode 1 with one
client; a failed attach to inode 1 and a failed attach to a fresh inode 2
both leave the registry unchanged and return `-ENOMEM`. -/
theorem open_client_alloc_failure_rollback_witness :
    (kchat_open [(1, ⟨[], 0, [7]⟩)] 1 true false).2 = -ENOMEM ∧
    (kchat_open [(1, ⟨[], 0, [7]⟩)] 1 true false).1 = [(1, ⟨[], 0, [7]⟩)] ∧
    (kchat_open [(1, ⟨[], 0, [7]⟩)] 2 true false).1 = [(1, ⟨[], 0, [7]⟩)] := by
  have h1 := open_client_alloc_failure_rollback [(1, (⟨[], 0, [7]⟩ : KchatServer))] 1 true
  have h2 := open_client_alloc_failure_rollback [(1, (⟨[], 0, [7]⟩ : KchatServer))] 2 true
  exact ⟨h1.1, h1.2.1 ⟨[], 0, [7]⟩ (by decide) (by decide), h2.2.2 (by decide)⟩

end Kchat
